import Mathlib

/-!
Shallow embedding of src/fw/m29f160xt.c (kicksmash32 firmware flash driver),
together with theorems settling the frozen claims about it.

Hardware interaction is modelled abstractly: bus reads are functions from a
poll or word index to the 32-bit value observed on the data lines, and the
commands issued to the flash device are collected in the result records.
Machine integers are Nat with explicit reduction modulo 2 to the 32 where
the C code can overflow. Wall-clock time inside the status poll loop is
modelled as one microsecond per poll iteration, so a call with timeout t
runs poll iterations 0..t, matching the structure of the C loop in which
usecs is refreshed at the top of every iteration and compared at re-entry.
-/

/-- EE_DEVICE_SIZE from m29f160xt.c: 1M 16-bit words. -/
def EE_DEVICE_SIZE : Nat := 1 <<< 20

/-- EE_MODE_ERASE: the monitor is waiting for an erase to complete. -/
def EE_MODE_ERASE : Nat := 0

/-- EE_MODE_PROGRAM: the monitor is waiting for a program to complete. -/
def EE_MODE_PROGRAM : Nat := 1

def EE_STATUS_NORMAL : Nat := 0

def EE_STATUS_ERASE_TIMEOUT : Nat := 1

def EE_STATUS_PROG_TIMEOUT : Nat := 2

def EE_STATUS_ERASE_FAILURE : Nat := 3

def EE_STATUS_PROG_FAILURE : Nat := 4

/-- EE_MODE_32: 32-bit flash bus (two 16-bit devices). -/
def EE_MODE_32 : Nat := 0

/-- EE_MODE_16_LOW: 16-bit flash low device (bits 0-15). -/
def EE_MODE_16_LOW : Nat := 1

/-- EE_MODE_16_HIGH: 16-bit flash high device (bits 16-31). -/
def EE_MODE_16_HIGH : Nat := 2

/-- Modelled from the spec: the erase-mode constants live in the header
m29f160xt.h which is not under src. The spec names exactly two erase modes,
Chip and Sector, and the guard in ee_erase rejects any mode above
MX_ERASE_MODE_SECTOR, so Sector is the largest valid mode value. -/
def MX_ERASE_MODE_CHIP : Nat := 0

def MX_ERASE_MODE_SECTOR : Nat := 1

/-- The program/erase failure status bits BIT(5) and BIT(5 + 16) watched by
ee_wait_for_done_status. -/
def FAIL_BITS : Nat := 0x200020

/-- Result of one call to ee_wait_for_done_status: rc is the C return value,
eeStatus the value left in the ee_status global, cleared records whether
ee_status_clear (the status-clear command followed by read mode) was invoked
before returning, and reads counts the ee_read_word calls on address 0. -/
structure WaitResult where
  rc : Nat
  eeStatus : Nat
  cleared : Bool
  reads : Nat
deriving DecidableEq

/-- ee_status value chosen for a program/erase failure, by monitor mode. -/
def failVariant (mode : Nat) : Nat :=
  if mode = EE_MODE_ERASE then EE_STATUS_ERASE_FAILURE else EE_STATUS_PROG_FAILURE

/-- ee_status value chosen for a timeout, by monitor mode. -/
def timeoutVariant (mode : Nat) : Nat :=
  if mode = EE_MODE_ERASE then EE_STATUS_ERASE_TIMEOUT else EE_STATUS_PROG_TIMEOUT

/-- Classification after the poll loop of ee_wait_for_done_status ends
without the success return: erase or program failure when a fail bit is set
in the last masked status read, otherwise a timeout. Both paths call
ee_status_clear and return 1. -/
def finishStatus (mode lst reads : Nat) : WaitResult :=
  if lst &&& FAIL_BITS ≠ 0 then ⟨1, failVariant mode, true, reads⟩
  else ⟨1, timeoutVariant mode, true, reads⟩

/-- The poll loop of ee_wait_for_done_status. fuel is the number of loop
iterations left, k the current iteration index, lst the lstatus variable,
same the same_count variable and sf the see_fail_count variable of the C
code. Each iteration reads word 0, masks it with the command mask, returns
success once the masked value matches lst with same_count already positive,
and otherwise keeps polling, breaking out early after the seventh read that
shows a failure bit. -/
def eeWaitLoop (src : Nat → Nat) (mask mode : Nat) :
    Nat → Nat → Nat → Nat → Nat → WaitResult
  | 0, k, lst, _, _ => finishStatus mode lst k
  | fuel + 1, k, lst, same, sf =>
    if src k &&& mask = lst ∧ 1 ≤ same then ⟨0, EE_STATUS_NORMAL, false, k + 1⟩
    else if (src k &&& mask) &&& FAIL_BITS ≠ 0 then
      if 5 < sf then finishStatus mode (src k &&& mask) (k + 1)
      else eeWaitLoop src mask mode fuel (k + 1) (src k &&& mask)
        (if src k &&& mask = lst then same + 1 else 0) (sf + 1)
    else eeWaitLoop src mask mode fuel (k + 1) (src k &&& mask)
      (if src k &&& mask = lst then same + 1 else 0) sf

/-- ee_wait_for_done_status from m29f160xt.c, over an abstract status source
src giving the raw value of each read of word 0. With a zero timeout the
while loop body never runs and the final classification sees status 0. -/
def ee_wait_for_done_status (src : Nat → Nat) (mask timeout mode : Nat) : WaitResult :=
  if timeout = 0 then ⟨1, timeoutVariant mode, true, 0⟩
  else eeWaitLoop src mask mode (timeout + 1) 0 0 0 0

/-- The masked status value remembered in lstatus when iteration k starts:
0 before the first read, otherwise the previous masked read. -/
def prevR (src : Nat → Nat) (mask : Nat) : Nat → Nat
  | 0 => 0
  | k + 1 => src k &&& mask

/-- Completion condition of the poll loop at iteration k: the masked read at
k equals the remembered previous value and the same counter is already
positive, which means the two preceding masked values (seeded with 0 before
the first read) also matched. -/
def doneAt (src : Nat → Nat) (mask k : Nat) : Bool :=
  decide (0 < k) && (src k &&& mask == prevR src mask k) &&
    (prevR src mask k == prevR src mask (k - 1))

/-- Every exit of the monitor either returns 0 with status Normal and no
status-clear, or returns 1 with a status-clear and a mode-matching failure
or timeout status. -/
def goodOutcome (mode : Nat) (r : WaitResult) : Prop :=
  (r.rc = 0 ∧ r.eeStatus = EE_STATUS_NORMAL ∧ r.cleared = false) ∨
  (r.rc = 1 ∧ r.cleared = true ∧
    (r.eeStatus = failVariant mode ∨ r.eeStatus = timeoutVariant mode))

lemma finishStatus_outcome (mode lst reads : Nat) :
    goodOutcome mode (finishStatus mode lst reads) := by
  unfold goodOutcome finishStatus
  split <;> simp

lemma eeWaitLoop_outcome (src : Nat → Nat) (mask mode : Nat) :
    ∀ fuel k lst same sf, goodOutcome mode (eeWaitLoop src mask mode fuel k lst same sf) := by
  intro fuel
  induction fuel with
  | zero =>
    intro k lst same sf
    exact finishStatus_outcome mode lst k
  | succ fuel ih =>
    intro k lst same sf
    simp only [eeWaitLoop]
    split
    · left; simp
    · split
      · split
        · exact finishStatus_outcome mode _ (k + 1)
        · exact ih (k + 1) _ _ (sf + 1)
      · exact ih (k + 1) _ _ sf

/-- Claim C7: in every non-success outcome of ee_wait_for_done_status the
device is returned to read mode via the status-clear command before the
nonzero result is returned, and the persisted status is the corresponding
mode-matching variant (EraseFailure/ProgramFailure or
EraseTimeout/ProgramTimeout); successful completion sets status Normal and
performs no status-clear. -/
theorem c7_monitor_fault_paths (src : Nat → Nat) (mask timeout mode : Nat) :
    ((ee_wait_for_done_status src mask timeout mode).rc ≠ 0 →
      (ee_wait_for_done_status src mask timeout mode).cleared = true ∧
      ((ee_wait_for_done_status src mask timeout mode).eeStatus = failVariant mode ∨
        (ee_wait_for_done_status src mask timeout mode).eeStatus = timeoutVariant mode)) ∧
    ((ee_wait_for_done_status src mask timeout mode).rc = 0 →
      (ee_wait_for_done_status src mask timeout mode).eeStatus = EE_STATUS_NORMAL ∧
      (ee_wait_for_done_status src mask timeout mode).cleared = false) := by
  have h : goodOutcome mode (ee_wait_for_done_status src mask timeout mode) := by
    unfold ee_wait_for_done_status
    split
    · right; simp [goodOutcome]
    · exact eeWaitLoop_outcome src mask mode (timeout + 1) 0 0 0 0
  rcases h with ⟨h0, h1, h2⟩ | ⟨h0, h1, h2⟩
  · exact ⟨fun hrc => absurd h0 hrc, fun _ => ⟨h1, h2⟩⟩
  · exact ⟨fun _ => ⟨h1, h2⟩, fun hrc => absurd (h0.symm.trans hrc) one_ne_zero⟩

theorem c7_monitor_fault_paths_witness :
    (ee_wait_for_done_status (fun k => k % 2) 0xffff 4 EE_MODE_ERASE).cleared = true ∧
    ((ee_wait_for_done_status (fun k => k % 2) 0xffff 4 EE_MODE_ERASE).eeStatus =
        failVariant EE_MODE_ERASE ∨
      (ee_wait_for_done_status (fun k => k % 2) 0xffff 4 EE_MODE_ERASE).eeStatus =
        timeoutVariant EE_MODE_ERASE) :=
  (c7_monitor_fault_paths (fun k => k % 2) 0xffff 4 EE_MODE_ERASE).1 (by decide)

lemma prevR_no_fail (src : Nat → Nat) (mask : Nat)
    (hnf : ∀ j, (src j &&& mask) &&& FAIL_BITS = 0) (k : Nat) :
    prevR src mask k &&& FAIL_BITS = 0 := by
  cases k with
  | zero => rw [show prevR src mask 0 = 0 from rfl]; exact Nat.zero_and _
  | succ n => exact hnf n

lemma eeWaitLoop_timeout (src : Nat → Nat) (mask mode : Nat)
    (hnf : ∀ j, (src j &&& mask) &&& FAIL_BITS = 0) :
    ∀ fuel k lst same sf, lst = prevR src mask k →
      ((1 ≤ same) ↔ (0 < k ∧ prevR src mask k = prevR src mask (k - 1))) →
      (∀ j, k ≤ j → j < k + fuel → doneAt src mask j = false) →
      eeWaitLoop src mask mode fuel k lst same sf =
        ⟨1, timeoutVariant mode, true, k + fuel⟩ := by
  intro fuel
  induction fuel with
  | zero =>
    intro k lst same sf hl _ _
    subst hl
    simp only [eeWaitLoop, finishStatus]
    rw [if_neg (not_ne_iff.mpr (prevR_no_fail src mask hnf k))]
    rfl
  | succ fuel ih =>
    intro k lst same sf hl hs hnd
    have hkdone := hnd k (le_refl k) (by omega)
    have hsucc : ¬(src k &&& mask = lst ∧ 1 ≤ same) := by
      rintro ⟨h1, h2⟩
      obtain ⟨hk0, hpp⟩ := hs.mp h2
      rw [hl] at h1
      simp [doneAt, hk0, h1, hpp] at hkdone
    simp only [eeWaitLoop]
    rw [if_neg hsucc, if_neg (fun h => h (hnf k)),
      ih (k + 1) (src k &&& mask) _ sf rfl ?_ ?_]
    · congr 1
      omega
    · constructor
      · intro h1
        by_cases hh : src k &&& mask = lst
        · refine ⟨Nat.succ_pos k, ?_⟩
          show prevR src mask (k + 1) = prevR src mask k
          rw [hl] at hh
          simpa [prevR] using hh
        · simp [hh] at h1
      · rintro ⟨_, hpp⟩
        have hh : src k &&& mask = lst := by
          rw [hl]
          simpa [prevR] using hpp
        simp [hh]
    · intro j hj1 hj2
      exact hnd j (by omega) (by omega)

lemma eeWaitLoop_done (src : Nat → Nat) (mask mode : Nat)
    (hnf : ∀ j, (src j &&& mask) &&& FAIL_BITS = 0) :
    ∀ fuel k lst same sf j, lst = prevR src mask k →
      ((1 ≤ same) ↔ (0 < k ∧ prevR src mask k = prevR src mask (k - 1))) →
      k ≤ j → j < k + fuel → doneAt src mask j = true →
      (∀ i, k ≤ i → i < j → doneAt src mask i = false) →
      eeWaitLoop src mask mode fuel k lst same sf = ⟨0, EE_STATUS_NORMAL, false, j + 1⟩ := by
  intro fuel
  induction fuel with
  | zero =>
    intro k lst same sf j _ _ hkj hjb _ _
    omega
  | succ fuel ih =>
    intro k lst same sf j hl hs hkj hjb hd hmin
    by_cases hjk : j = k
    · subst hjk
      have hd2 : (0 < j ∧ src j &&& mask = prevR src mask j) ∧
          prevR src mask j = prevR src mask (j - 1) := by
        simpa [doneAt, Bool.and_eq_true, beq_iff_eq, decide_eq_true_eq] using hd
      obtain ⟨⟨hj0, hr⟩, hpp⟩ := hd2
      have hsucc : src j &&& mask = lst ∧ 1 ≤ same :=
        ⟨by rw [hl]; exact hr, hs.mpr ⟨hj0, hpp⟩⟩
      simp only [eeWaitLoop]
      rw [if_pos hsucc]
    · have hkdone := hmin k (le_refl k) (by omega)
      have hsucc : ¬(src k &&& mask = lst ∧ 1 ≤ same) := by
        rintro ⟨h1, h2⟩
        obtain ⟨hk0, hpp⟩ := hs.mp h2
        rw [hl] at h1
        simp [doneAt, hk0, h1, hpp] at hkdone
      simp only [eeWaitLoop]
      rw [if_neg hsucc, if_neg (fun h => h (hnf k))]
      refine ih (k + 1) (src k &&& mask) _ sf j rfl ?_ (by omega) (by omega) hd ?_
      · constructor
        · intro h1
          by_cases hh : src k &&& mask = lst
          · refine ⟨Nat.succ_pos k, ?_⟩
            show prevR src mask (k + 1) = prevR src mask k
            rw [hl] at hh
            simpa [prevR] using hh
          · simp [hh] at h1
        · rintro ⟨_, hpp⟩
          have hh : src k &&& mask = lst := by
            rw [hl]
            simpa [prevR] using hpp
          simp [hh]
      · intro i hi1 hi2
        exact hmin i (by omega) hi2

/-- Claim C2 (amended): over any status source whose masked reads never show
the failure bits, the monitor returns 0 with status Normal exactly at the
first poll iteration j at which the masked read repeats the previous value
with the same counter already positive, i.e. after three consecutive equal
masked reads in general, or after two initial reads of 0 (the comparison
register is seeded with 0); and if no such iteration occurs up to the
timeout, it returns 1 with the status persisted at EraseTimeout for an erase
and ProgramTimeout for a program, after a status-clear. -/
theorem c2_monitor_completion (src : Nat → Nat) (mask timeout mode : Nat)
    (hnf : ∀ j, (src j &&& mask) &&& FAIL_BITS = 0) :
    ((∀ j, j ≤ timeout → doneAt src mask j = false) →
      ee_wait_for_done_status src mask timeout mode =
        ⟨1, timeoutVariant mode, true, if timeout = 0 then 0 else timeout + 1⟩) ∧
    (∀ j, j ≤ timeout → doneAt src mask j = true →
      (∀ i, i < j → doneAt src mask i = false) →
      ee_wait_for_done_status src mask timeout mode =
        ⟨0, EE_STATUS_NORMAL, false, j + 1⟩) := by
  constructor
  · intro hnd
    unfold ee_wait_for_done_status
    by_cases h0 : timeout = 0
    · rw [if_pos h0, if_pos h0]
    · rw [if_neg h0, if_neg h0,
        eeWaitLoop_timeout src mask mode hnf (timeout + 1) 0 0 0 0 rfl (by simp)
          (fun j _ hj => hnd j (by omega))]
      simp
  · intro j hj hd hmin
    unfold ee_wait_for_done_status
    by_cases h0 : timeout = 0
    · subst h0
      have hj0 : j = 0 := by omega
      subst hj0
      simp [doneAt] at hd
    · rw [if_neg h0]
      exact eeWaitLoop_done src mask mode hnf (timeout + 1) 0 0 0 0 j rfl (by simp)
        (by omega) (by omega) hd (fun i _ hi => hmin i hi)

theorem c2_monitor_completion_witness :
    ee_wait_for_done_status (fun _ => 5) 0xffff 10 EE_MODE_ERASE =
      ⟨0, EE_STATUS_NORMAL, false, 3⟩ :=
  (c2_monitor_completion (fun _ => 5) 0xffff 10 EE_MODE_ERASE
      (fun _ => (by decide : (5 &&& 0xffff) &&& FAIL_BITS = 0))).2
    2 (by decide) (by decide) (by decide)

/-- Counterexample to claim C2 as stated: on the constant source 5 the first
two masked reads of word 0 are equal, yet the monitor does not report
completion after those two reads; it completes only after the third read. -/
theorem c2_monitor_completion_counterexample :
    ((fun (_ : Nat) => 5) 0 &&& 0xffff) = ((fun (_ : Nat) => 5) 1 &&& 0xffff) ∧
    (ee_wait_for_done_status (fun _ => 5) 0xffff 10 EE_MODE_ERASE).rc = 0 ∧
    (ee_wait_for_done_status (fun _ => 5) 0xffff 10 EE_MODE_ERASE).reads ≠ 2 ∧
    (ee_wait_for_done_status (fun _ => 5) 0xffff 10 EE_MODE_ERASE).reads = 3 := by
  refine ⟨rfl, ?_, ?_, ?_⟩ <;> decide

/-- Word conversion applied by ee_read before storing each bus word into the
caller buffer: the full 32-bit word in 32-bit mode, the low half in 16-bit
low mode, the high half shifted down in 16-bit high mode. -/
def readWordOfMode (mode w : Nat) : Nat :=
  if mode = EE_MODE_32 then w &&& 0xffffffff
  else if mode = EE_MODE_16_LOW then w &&& 0xffff
  else (w &&& 0xffffffff) >>> 16

/-- ee_read from m29f160xt.c over an abstract device dev mapping a word
address to the raw 32-bit bus value. The addr + count comparison is 32-bit
unsigned arithmetic as in the C code. Returns the C result code and the list
of words transferred to the caller buffer. -/
def ee_read (dev : Nat → Nat) (mode addr count : Nat) : Nat × List Nat :=
  if EE_DEVICE_SIZE < (addr + count) % 4294967296 then (1, [])
  else (0, (List.range count).map fun i => readWordOfMode mode (dev ((addr + i) % 4294967296)))

/-- Word conversion applied by ee_write when loading the next buffer word:
32-bit word, 16-bit word, or 16-bit word shifted into the high half. -/
def writeWordOfMode (mode d : Nat) : Nat :=
  if mode = EE_MODE_32 then d &&& 0xffffffff
  else if mode = EE_MODE_16_LOW then d &&& 0xffff
  else (d &&& 0xffff) <<< 16

/-- The per-word program/verify/retry loop of ee_write (the try_again goto
loop). att gives, for each attempt number of this word, the result code of
ee_program_word (the completion monitor outcome) and the 32-bit value read
back for verification. t is the try_count variable. A monitor failure is
retried while try_count is below 2, else surfaced as 3; a verify mismatch is
retried while try_count is below 2 and every differing bit is a bit that is
1 in the intended value but 0 in the cell (a 1 to 0 transition the next
program can still fix), else surfaced as 4. try_count strictly increases on
every retry, so fuel 3 from entry is never exhausted. -/
def eeWriteTry (att : Nat → Nat × Nat) (mask value : Nat) : Nat → Nat → Nat × Nat
  | 0, t => (0, t)
  | fuel + 1, t =>
    if (att t).1 ≠ 0 then
      if t < 2 then eeWriteTry att mask value fuel (t + 1) else (3, t + 1)
    else if (value ^^^ (att t).2) &&& mask = 0 then (0, t + 1)
    else if t < 2 ∧ ((value ^^^ (att t).2) &&& mask) &&& ((att t).2 ^^^ 0xffffffff) = 0 then
      eeWriteTry att mask value fuel (t + 1)
    else (4, t + 1)

/-- One word of ee_write: program, verify and retry, starting from
try_count 0. Returns the result code and the number of program attempts
made. -/
def ee_write_word_verified (att : Nat → Nat × Nat) (mask value : Nat) : Nat × Nat :=
  eeWriteTry att mask value 3 0

/-- The word loop of ee_write: processes the remaining buffer words, with
att indexed first by word position then by attempt. Returns the C result
code and the count of words successfully programmed and verified. -/
def eeWriteGo (att : Nat → Nat → Nat × Nat) (mask mode : Nat) : List Nat → Nat → Nat × Nat
  | [], idx => (0, idx)
  | d :: rest, idx =>
    if (ee_write_word_verified (att idx) mask (writeWordOfMode mode d)).1 = 0 then
      eeWriteGo att mask mode rest (idx + 1)
    else ((ee_write_word_verified (att idx) mask (writeWordOfMode mode d)).1, idx)

/-- ee_write from m29f160xt.c over an abstract per-word attempt behaviour.
The addr + count range comparison is 32-bit unsigned arithmetic as in the C
code, with count the number of buffer words. -/
def ee_write (att : Nat → Nat → Nat × Nat) (mask mode addr : Nat) (data : List Nat) : Nat × Nat :=
  if EE_DEVICE_SIZE < (addr + data.length) % 4294967296 then (1, 0)
  else eeWriteGo att mask mode data 0

lemma eeWriteTry_rc_ne_one (att : Nat → Nat × Nat) (mask value : Nat) :
    ∀ fuel t, (eeWriteTry att mask value fuel t).1 ≠ 1 := by
  intro fuel
  induction fuel with
  | zero => intro t; simp [eeWriteTry]
  | succ fuel ih =>
    intro t
    simp only [eeWriteTry]
    split
    · split
      · exact ih (t + 1)
      · simp
    · split
      · simp
      · split
        · exact ih (t + 1)
        · simp

lemma eeWriteGo_rc_ne_one (att : Nat → Nat → Nat × Nat) (mask mode : Nat) :
    ∀ data idx, (eeWriteGo att mask mode data idx).1 ≠ 1 := by
  intro data
  induction data with
  | nil => intro idx; simp [eeWriteGo]
  | cons d rest ih =>
    intro idx
    simp only [eeWriteGo]
    split
    · exact ih (idx + 1)
    · exact eeWriteTry_rc_ne_one (att idx) mask _ 3 0

/-- Claim C3: in the per-word verify step of ee_write, a mismatch is retried
in place only when every differing bit is a 1 to 0 transition still owed by
the cell and fewer than 2 retries have happened (first conjunct: such a
retry happens and succeeds on a clean second attempt); a mismatch involving
a bit that must flip 0 to 1 fails immediately as a verify mismatch with no
retry (second conjunct); a completion-monitor failure is retried up to 2
times before being surfaced as a program failure (third conjunct). -/
theorem c3_program_retry (att : Nat → Nat × Nat) (mask value : Nat) :
    (∀ rb rb2, att 0 = (0, rb) → (value ^^^ rb) &&& mask ≠ 0 →
      ((value ^^^ rb) &&& mask) &&& (rb ^^^ 0xffffffff) = 0 →
      att 1 = (0, rb2) → (value ^^^ rb2) &&& mask = 0 →
      ee_write_word_verified att mask value = (0, 2)) ∧
    (∀ rb, att 0 = (0, rb) → (value ^^^ rb) &&& mask ≠ 0 →
      ((value ^^^ rb) &&& mask) &&& (rb ^^^ 0xffffffff) ≠ 0 →
      ee_write_word_verified att mask value = (4, 1)) ∧
    ((∀ t, t < 3 → (att t).1 ≠ 0) → ee_write_word_verified att mask value = (3, 3)) := by
  refine ⟨?_, ?_, ?_⟩
  · intro rb rb2 h0 hx hok h1 hmatch
    unfold ee_write_word_verified
    simp only [eeWriteTry, h0, h1]
    simp [hx, hok, hmatch]
  · intro rb h0 hx hbad
    unfold ee_write_word_verified
    simp only [eeWriteTry, h0]
    simp [hx, hbad]
  · intro hfail
    unfold ee_write_word_verified
    simp only [eeWriteTry]
    simp [hfail 0 (by omega), hfail 1 (by omega), hfail 2 (by omega)]

theorem c3_program_retry_witness :
    ee_write_word_verified (fun t => if t = 0 then (0, 0x1235) else (0, 0x1234)) 0xffff 0x1234 =
      (0, 2) ∧
    ee_write_word_verified (fun _ => (0, 0x1214)) 0xffff 0x1234 = (4, 1) ∧
    ee_write_word_verified (fun _ => (1, 0)) 0xffff 0x1234 = (3, 3) :=
  ⟨(c3_program_retry (fun t => if t = 0 then (0, 0x1235) else (0, 0x1234)) 0xffff 0x1234).1
      0x1235 0x1234 rfl (by decide) (by decide) rfl (by decide),
   (c3_program_retry (fun _ => (0, 0x1214)) 0xffff 0x1234).2.1
      0x1214 rfl (by decide) (by decide),
   (c3_program_retry (fun _ => (1, 0)) 0xffff 0x1234).2.2 (fun t _ => by simp)⟩

/-- Claim C10: ee_read and ee_write called with count 0 on any address up to
the device bound succeed with result 0 and transfer or program no word. -/
theorem c10_zero_count (dev : Nat → Nat) (att : Nat → Nat → Nat × Nat)
    (mask mode addr : Nat) (h : addr ≤ EE_DEVICE_SIZE) :
    ee_read dev mode addr 0 = (0, []) ∧ ee_write att mask mode addr [] = (0, 0) := by
  have hm : (addr + 0) % 4294967296 = addr := by
    have : addr < 4294967296 := by
      have : EE_DEVICE_SIZE = 1048576 := by decide
      omega
    omega
  constructor
  · unfold ee_read
    rw [hm, if_neg (by omega)]
    simp
  · unfold ee_write
    simp only [List.length_nil, hm]
    rw [if_neg (Nat.not_lt.mpr h)]
    rfl

theorem c10_zero_count_witness :
    ee_read (fun _ => 0) EE_MODE_16_LOW 1048576 0 = (0, []) ∧
    ee_write (fun _ _ => (0, 0)) 0xffff EE_MODE_16_LOW 1048576 [] = (0, 0) :=
  c10_zero_count (fun _ => 0) (fun _ _ => (0, 0)) 0xffff EE_MODE_16_LOW 1048576 (by decide)

/-- The chip_blocks_t record of m29f160xt.c: device id, boot block number,
common block size in Kwords, boot sub-sector size in Kwords, and the boot
block sub-sector erase map. -/
structure chip_blocks_t where
  cb_chipid : Nat
  cb_bbnum : Nat
  cb_bsize : Nat
  cb_ssize : Nat
  cb_map : Nat
deriving DecidableEq

/-- The static chip_blocks table, last entry being the default used for
unmatched ids. -/
def chip_blocks : List chip_blocks_t :=
  [⟨0x000122D2, 31, 32, 4, 0x71⟩,
   ⟨0x000122D8, 0, 32, 4, 0x1d⟩,
   ⟨0x000122D6, 15, 32, 4, 0x71⟩,
   ⟨0x00012258, 0, 32, 4, 0x1d⟩,
   ⟨0x00c222D6, 15, 32, 4, 0x71⟩,
   ⟨0x00c22258, 0, 32, 4, 0x1d⟩,
   ⟨0x00000000, 0, 32, 4, 0x1d⟩]

/-- The linear search of get_chip_block_info: compare every entry except the
last against the id, and fall back on the last (default) entry. The empty
case is unreachable for the nonempty static table. -/
def lookupCb : List chip_blocks_t → Nat → chip_blocks_t
  | [], _ => ⟨0, 0, 32, 4, 0x1d⟩
  | [cb], _ => cb
  | cb :: rest, chipid => if cb.cb_chipid = chipid then cb else lookupCb rest chipid

/-- get_chip_block_info from m29f160xt.c. -/
def get_chip_block_info (chipid : Nat) : chip_blocks_t := lookupCb chip_blocks chipid

lemma lookupCb_mem : ∀ (l : List chip_blocks_t) (chipid : Nat), l ≠ [] →
    lookupCb l chipid ∈ l := by
  intro l
  induction l with
  | nil => intro chipid h; exact absurd rfl h
  | cons cb rest ih =>
    intro chipid _
    cases rest with
    | nil => simp [lookupCb]
    | cons cb2 rest2 =>
      by_cases h : cb.cb_chipid = chipid
      · simp [lookupCb, h]
      · rw [show lookupCb (cb :: cb2 :: rest2) chipid =
            (if cb.cb_chipid = chipid then cb else lookupCb (cb2 :: rest2) chipid) from rfl,
          if_neg h]
        exact List.mem_cons_of_mem cb (ih chipid (by simp))

lemma get_cb_mem (chipid : Nat) : get_chip_block_info chipid ∈ chip_blocks :=
  lookupCb_mem chip_blocks chipid (by simp [chip_blocks])

lemma cb_table_fields : ∀ cb ∈ chip_blocks, cb.cb_bsize = 32 ∧ cb.cb_ssize = 4 := by
  decide

lemma get_cb_fields (chipid : Nat) :
    (get_chip_block_info chipid).cb_bsize = 32 ∧ (get_chip_block_info chipid).cb_ssize = 4 :=
  cb_table_fields _ (get_cb_mem chipid)

/-- Claim C8: geometry lookup is total, every id present in the static table
yields that entry, every id absent from the table yields the default
bottom-boot entry, and the MX29F800CB id 0x00c22258 yields boot block 0. -/
theorem c8_chip_lookup :
    (∀ chipid, get_chip_block_info chipid ∈ chip_blocks) ∧
    (∀ cb ∈ chip_blocks, get_chip_block_info cb.cb_chipid = cb) ∧
    (∀ chipid, chipid ∉ chip_blocks.map chip_blocks_t.cb_chipid →
      get_chip_block_info chipid = ⟨0, 0, 32, 4, 0x1d⟩) ∧
    (get_chip_block_info 0x00c22258).cb_bbnum = 0 := by
  refine ⟨get_cb_mem, by decide, ?_, by decide⟩
  intro chipid h
  simp only [chip_blocks, List.map, List.mem_cons, List.not_mem_nil, or_false] at h
  push_neg at h
  obtain ⟨h1, h2, h3, h4, h5, h6, h7⟩ := h
  simp only [get_chip_block_info, chip_blocks, lookupCb]
  rw [if_neg (fun hh => h1 hh.symm), if_neg (fun hh => h2 hh.symm),
    if_neg (fun hh => h3 hh.symm), if_neg (fun hh => h4 hh.symm),
    if_neg (fun hh => h5 hh.symm), if_neg (fun hh => h6 hh.symm)]

theorem c8_chip_lookup_witness :
    get_chip_block_info 0x000122D2 = ⟨0x000122D2, 31, 32, 4, 0x71⟩ ∧
    get_chip_block_info 0xdeadbeef = ⟨0, 0, 32, 4, 0x1d⟩ :=
  ⟨c8_chip_lookup.2.1 ⟨0x000122D2, 31, 32, 4, 0x71⟩ (by decide),
   c8_chip_lookup.2.2.1 0xdeadbeef (by decide)⟩

/-- The do-while walk over the boot-block sub-sector erase map in ee_erase:
starting at sub-sector snum, each pass adds one sub-sector size to the
accumulated erase unit, advances snum, and stops when the map has a set bit
at the new sub-sector (the start of the next erase unit) or when sub-sector
index 8 is reached. fuel 9 always suffices since snum only grows. -/
def bootAccum (smap ssz : Nat) : Nat → Nat → Nat → Nat
  | 0, _, acc => acc
  | fuel + 1, snum, acc =>
    if smap.testBit (snum + 1) then acc + ssz
    else if snum + 1 < 8 then bootAccum smap ssz fuel (snum + 1) (acc + ssz)
    else acc + ssz

/-- Boot-block erase unit size for the sub-sector with index s, in words. -/
def bootUnit (cb : chip_blocks_t) (s : Nat) : Nat :=
  bootAccum cb.cb_map (cb.cb_ssize <<< 10) 9 s 0

/-- The erase unit size ee_erase computes for one address: the accumulated
boot-block sub-sector walk when the address falls in the designated boot
block, otherwise the common block size. -/
def erase_unit_size (cb : chip_blocks_t) (addr : Nat) : Nat :=
  if addr / (cb.cb_bsize <<< 10) = cb.cb_bbnum then
    bootUnit cb
      ((addr - addr / (cb.cb_bsize <<< 10) * (cb.cb_bsize <<< 10)) / (cb.cb_ssize <<< 10))
  else cb.cb_bsize <<< 10

/-- The inner block-erase loop of ee_erase in sector mode: issues one
sector-erase command (0x30) per erase unit at the unit-masked address,
adds one second of timeout per unit, and advances until the requested
length is consumed. Each issued unit is recorded as (running address,
command address, unit size). The address advance wraps at 2 to the 32 as the
C uint32_t does. fuel bounds the recursion and is instantiated with the
requested length, which suffices because every unit size is positive for
table geometries. -/
def eraseSectors (cb : chip_blocks_t) : Nat → Nat → Nat → Nat → List (Nat × Nat × Nat) × Nat
  | 0, _, _, tmo => ([], tmo)
  | fuel + 1, addr, len, tmo =>
    if len = 0 then ([], tmo)
    else
      if len < erase_unit_size cb addr then
        ([(addr, addr &&& (0xffffffff ^^^ (erase_unit_size cb addr - 1)),
           erase_unit_size cb addr)], tmo + 1000000)
      else
        ((addr, addr &&& (0xffffffff ^^^ (erase_unit_size cb addr - 1)),
          erase_unit_size cb addr) ::
            (eraseSectors cb fuel ((addr + erase_unit_size cb addr) % 4294967296)
              (len - erase_unit_size cb addr) (tmo + 1000000)).1,
         (eraseSectors cb fuel ((addr + erase_unit_size cb addr) % 4294967296)
           (len - erase_unit_size cb addr) (tmo + 1000000)).2)

/-- Result of ee_erase: rc is the C return value, units the sector-erase
commands issued as (running address, command address, unit size) triples,
and chipCmd records whether the chip-erase command (0x10) was issued. -/
structure EraseResult where
  rc : Nat
  units : List (Nat × Nat × Nat)
  chipCmd : Bool
deriving DecidableEq

/-- ee_erase from m29f160xt.c over an abstract status source for the
completion monitor. chipid is the part id reported by ee_id, from which the
geometry is looked up. The outer while loop of the C code is unrolled to a
single pass: the inner block loop always drives len to 0, so the outer
loop body runs at most once and its address range check only ever fires on
the starting address. len is forced to 1 for a zero length or chip mode. -/
def ee_erase (chipid : Nat) (src : Nat → Nat) (mask mode addr len : Nat) : EraseResult :=
  if MX_ERASE_MODE_SECTOR < mode then ⟨1, [], false⟩
  else if EE_DEVICE_SIZE ≤ addr then ⟨1, [], false⟩
  else if mode = MX_ERASE_MODE_CHIP then
    ⟨(ee_wait_for_done_status src mask 32000000 EE_MODE_ERASE).rc, [], true⟩
  else
    ⟨(ee_wait_for_done_status src mask
        (eraseSectors (get_chip_block_info chipid) (if len = 0 then 1 else len) addr
          (if len = 0 then 1 else len) 1000000).2 EE_MODE_ERASE).rc,
     (eraseSectors (get_chip_block_info chipid) (if len = 0 then 1 else len) addr
       (if len = 0 then 1 else len) 1000000).1,
     false⟩

/-- Total words covered by the issued erase units. -/
def unitsSizeSum (l : List (Nat × Nat × Nat)) : Nat := (l.map fun u => u.2.2).sum

lemma bootAccum_ge (smap ssz : Nat) :
    ∀ fuel snum acc, acc ≤ bootAccum smap ssz fuel snum acc := by
  intro fuel
  induction fuel with
  | zero => intro snum acc; simp [bootAccum]
  | succ fuel ih =>
    intro snum acc
    simp only [bootAccum]
    split
    · omega
    · split
      · exact le_trans (by omega) (ih (snum + 1) (acc + ssz))
      · omega

lemma bootAccum_lower (smap ssz : Nat) :
    ∀ fuel snum acc, 0 < fuel → acc + ssz ≤ bootAccum smap ssz fuel snum acc := by
  intro fuel snum acc hf
  cases fuel with
  | zero => omega
  | succ fuel =>
    simp only [bootAccum]
    split
    · omega
    · split
      · exact bootAccum_ge smap ssz fuel (snum + 1) (acc + ssz)
      · omega

lemma erase_unit_lb (cb : chip_blocks_t) (hb : cb.cb_bsize = 32) (hs : cb.cb_ssize = 4)
    (addr : Nat) : 4096 ≤ erase_unit_size cb addr := by
  unfold erase_unit_size bootUnit
  rw [hb, hs]
  split
  · generalize (addr - addr / (32 <<< 10) * (32 <<< 10)) / (4 <<< 10) = s
    have h4 : (4 : Nat) <<< 10 = 4096 := by decide
    have := bootAccum_lower cb.cb_map (4 <<< 10) 9 s 0 (by omega)
    omega
  · decide

lemma eraseSectors_covers (cb : chip_blocks_t) (hb : cb.cb_bsize = 32)
    (hs : cb.cb_ssize = 4) :
    ∀ fuel len addr tmo, len ≤ fuel →
      len ≤ unitsSizeSum (eraseSectors cb fuel addr len tmo).1 := by
  intro fuel
  induction fuel with
  | zero => intro len addr tmo h; omega
  | succ fuel ih =>
    intro len addr tmo h
    simp only [eraseSectors]
    split
    · omega
    · split
      · simp only [unitsSizeSum, List.map_cons, List.map_nil, List.sum_cons, List.sum_nil]
        omega
      · rename_i hlen hge
        have hpos := erase_unit_lb cb hb hs addr
        have hrec := ih (len - erase_unit_size cb addr)
          ((addr + erase_unit_size cb addr) % 4294967296) (tmo + 1000000) (by omega)
        simp only [unitsSizeSum, List.map_cons, List.sum_cons] at *
        omega

/-- Claim C4: for a sector-mode erase starting in range, the erase unit at
each address is the boot-block sub-sector walk result when the address lies
in the designated boot block and the common 32K-word block size otherwise,
and the total size of the issued erase units is never less than the
requested length. -/
theorem c4_erase_coverage (chipid : Nat) (src : Nat → Nat) (mask addr len : Nat)
    (haddr : addr < EE_DEVICE_SIZE) :
    len ≤ unitsSizeSum (ee_erase chipid src mask MX_ERASE_MODE_SECTOR addr len).units ∧
    (∀ u, u / 32768 = (get_chip_block_info chipid).cb_bbnum →
      erase_unit_size (get_chip_block_info chipid) u =
        bootUnit (get_chip_block_info chipid) (u % 32768 / 4096)) ∧
    (∀ u, u / 32768 ≠ (get_chip_block_info chipid).cb_bbnum →
      erase_unit_size (get_chip_block_info chipid) u = 32768) := by
  obtain ⟨hb, hs⟩ := get_cb_fields chipid
  refine ⟨?_, ?_, ?_⟩
  · unfold ee_erase
    rw [if_neg (by decide), if_neg (Nat.not_le.mpr haddr), if_neg (by decide)]
    by_cases hl : len = 0
    · subst hl
      exact Nat.zero_le _
    · rw [if_neg hl]
      exact eraseSectors_covers (get_chip_block_info chipid) hb hs len len addr 1000000
        (le_refl _)
  · intro u hu
    unfold erase_unit_size
    rw [hb, hs]
    have h32 : (32 : Nat) <<< 10 = 32768 := by decide
    have h4 : (4 : Nat) <<< 10 = 4096 := by decide
    rw [h32, h4, if_pos hu]
    congr 1
    omega
  · intro u hu
    unfold erase_unit_size
    rw [hb, hs]
    have h32 : (32 : Nat) <<< 10 = 32768 := by decide
    rw [h32, if_neg hu]

theorem c4_erase_coverage_witness :
    5000 ≤ unitsSizeSum (ee_erase 0 (fun _ => 0) 0xffff MX_ERASE_MODE_SECTOR 0 5000).units :=
  (c4_erase_coverage 0 (fun _ => 0) 0xffff 0 5000 (by decide)).1

/-- Claim C6: a sector-mode erase with length 0 at any valid address issues
exactly one sector-erase unit. -/
theorem c6_zero_len_one_unit (chipid : Nat) (src : Nat → Nat) (mask addr : Nat)
    (haddr : addr < EE_DEVICE_SIZE) :
    ((ee_erase chipid src mask MX_ERASE_MODE_SECTOR addr 0).units).length = 1 := by
  obtain ⟨hb, hs⟩ := get_cb_fields chipid
  have hpos := erase_unit_lb (get_chip_block_info chipid) hb hs addr
  have key : ∀ tmo, ((eraseSectors (get_chip_block_info chipid) 1 addr 1 tmo).1).length = 1 := by
    intro tmo
    simp only [eraseSectors]
    rw [if_neg (by omega), if_pos (by omega)]
    rfl
  unfold ee_erase
  rw [if_neg (by decide), if_neg (Nat.not_le.mpr haddr), if_neg (by decide), if_pos rfl]
  exact key 1000000

theorem c6_zero_len_one_unit_witness :
    ((ee_erase 0 (fun _ => 0) 0xffff MX_ERASE_MODE_SECTOR 1 0).units).length = 1 :=
  c6_zero_len_one_unit 0 (fun _ => 0) 0xffff 1 (by decide)

lemma testBit_div_mul (u k i : Nat) :
    (u / 2 ^ k * 2 ^ k).testBit i = (decide (k ≤ i) && u.testBit i) := by
  rw [← Nat.shiftRight_eq_div_pow, ← Nat.shiftLeft_eq, Nat.testBit_shiftLeft,
    Nat.testBit_shiftRight]
  by_cases h : k ≤ i
  · have hki : k + (i - k) = i := by omega
    simp [h, hki, ge_iff_le]
  · simp [h, ge_iff_le]

lemma and_mask_32768 (u : Nat) (hu : u < 2 ^ 32) :
    u &&& (0xffffffff ^^^ 32767) = u / 2 ^ 15 * 2 ^ 15 := by
  apply Nat.eq_of_testBit_eq
  intro i
  rw [Nat.testBit_land, Nat.testBit_xor, testBit_div_mul,
    show (0xffffffff : Nat) = 2 ^ 32 - 1 by norm_num,
    show (32767 : Nat) = 2 ^ 15 - 1 by norm_num,
    Nat.testBit_two_pow_sub_one, Nat.testBit_two_pow_sub_one]
  rcases Nat.lt_or_ge i 32 with h32 | h32
  · rcases Nat.lt_or_ge i 15 with h15 | h15
    · simp [h32, h15, show ¬(15 ≤ i) by omega]
    · simp [h32, show ¬(i < 15) by omega, show 15 ≤ i by omega]
  · have hti : u.testBit i = false :=
      Nat.testBit_lt_two_pow (lt_of_lt_of_le hu (Nat.pow_le_pow_right (by norm_num) h32))
    simp [hti]

lemma and_mask_boot (u sz : Nat) (hu : u < 2 ^ 32) (hdvd : 4096 ∣ sz)
    (hlb : 4096 ≤ sz) (hub : sz ≤ 32768)
    (hmapok : (u % 32768 / 4096 * 4096) &&& (sz - 1) = 0) :
    u &&& (0xffffffff ^^^ (sz - 1)) = u / 2 ^ 12 * 2 ^ 12 := by
  obtain ⟨c, hc⟩ := hdvd
  have hlow : ∀ j, j < 12 → (sz - 1).testBit j = true := by
    intro j hj
    have h12 : (2 : Nat) ^ 12 = 4096 := by norm_num
    have hm : (sz - 1) % 2 ^ 12 = 4095 := by omega
    have h1 := Nat.testBit_mod_two_pow (sz - 1) 12 j
    rw [hm, show (4095 : Nat) = 2 ^ 12 - 1 by norm_num, Nat.testBit_two_pow_sub_one] at h1
    have hj12 : decide (j < 12) = true := by simp [hj]
    rw [hj12, Bool.true_and] at h1
    exact h1.symm
  have hhigh : ∀ j, 15 ≤ j → (sz - 1).testBit j = false := by
    intro j hj
    have h15 : (2 : Nat) ^ 15 = 32768 := by norm_num
    exact Nat.testBit_lt_two_pow
      (lt_of_lt_of_le (by omega) (Nat.pow_le_pow_right (by norm_num) hj))
  apply Nat.eq_of_testBit_eq
  intro i
  rw [Nat.testBit_land, Nat.testBit_xor, testBit_div_mul,
    show (0xffffffff : Nat) = 2 ^ 32 - 1 by norm_num, Nat.testBit_two_pow_sub_one]
  rcases Nat.lt_or_ge i 12 with h12 | h12
  · simp [hlow i h12, show i < 32 by omega, show ¬(12 ≤ i) by omega]
  · rcases Nat.lt_or_ge i 15 with h15 | h15
    · cases hbit : u.testBit i with
      | false => simp [hbit]
      | true =>
        have hz : ((u % 32768 / 4096 * 4096) &&& (sz - 1)).testBit i = false := by
          rw [hmapok]; exact Nat.zero_testBit i
        rw [Nat.testBit_land] at hz
        have hsb : (u % 32768 / 4096 * 4096).testBit i = true := by
          rw [show (4096 : Nat) = 2 ^ 12 by norm_num, show (32768 : Nat) = 2 ^ 15 by norm_num,
            testBit_div_mul, Nat.testBit_mod_two_pow]
          simp [show 12 ≤ i by omega, show i < 15 by omega, hbit]
        rw [hsb, Bool.true_and] at hz
        simp [hbit, hz, show i < 32 by omega, show 12 ≤ i by omega]
    · rcases Nat.lt_or_ge i 32 with h32 | h32
      · simp [hhigh i h15, h32, show 12 ≤ i by omega]
      · have hti : u.testBit i = false :=
          Nat.testBit_lt_two_pow (lt_of_lt_of_le hu (Nat.pow_le_pow_right (by norm_num) h32))
        simp [hti]

lemma bootFacts : ∀ cb ∈ chip_blocks, ∀ s, s < 8 →
    4096 ∣ bootUnit cb s ∧ 4096 ≤ bootUnit cb s ∧ bootUnit cb s ≤ 32768 ∧
      (s * 4096) &&& (bootUnit cb s - 1) = 0 := by
  decide

/-- For every address and every table geometry, the sector-erase command
address addr AND NOT (unit size - 1) computed by ee_erase equals the address
rounded down to the boundary of its sub-sector (in the boot block) or of its
common block (elsewhere); the unit size also dominates that granularity. -/
lemma cmd_addr_round (cb : chip_blocks_t) (hmem : cb ∈ chip_blocks) (u : Nat)
    (hu : u < 4294967296) :
    u &&& (0xffffffff ^^^ (erase_unit_size cb u - 1)) =
      u - u % (if u / 32768 = cb.cb_bbnum then 4096 else 32768) ∧
    (if u / 32768 = cb.cb_bbnum then 4096 else 32768) ≤ erase_unit_size cb u := by
  obtain ⟨hb, hs⟩ := cb_table_fields cb hmem
  have h232 : (2 : Nat) ^ 32 = 4294967296 := by norm_num
  have hu2 : u < 2 ^ 32 := by omega
  by_cases hbb : u / 32768 = cb.cb_bbnum
  · have hunit : erase_unit_size cb u = bootUnit cb (u % 32768 / 4096) := by
      unfold erase_unit_size
      rw [hb, hs, show (32 : Nat) <<< 10 = 32768 by decide,
        show (4 : Nat) <<< 10 = 4096 by decide, if_pos hbb]
      congr 1
      omega
    have hsu : u % 32768 / 4096 < 8 := by omega
    obtain ⟨hdvd, hlb, hub, hf⟩ := bootFacts cb hmem (u % 32768 / 4096) hsu
    rw [hunit, if_pos hbb]
    refine ⟨?_, hlb⟩
    rw [and_mask_boot u (bootUnit cb (u % 32768 / 4096)) hu2 hdvd hlb hub hf]
    have h212 : (2 : Nat) ^ 12 = 4096 := by norm_num
    omega
  · have hunit : erase_unit_size cb u = 32768 := by
      unfold erase_unit_size
      rw [hb, show (32 : Nat) <<< 10 = 32768 by decide, if_neg hbb]
    rw [hunit, if_neg hbb]
    refine ⟨?_, le_refl _⟩
    rw [show (32768 : Nat) - 1 = 32767 by norm_num, and_mask_32768 u hu2]
    have h215 : (2 : Nat) ^ 15 = 32768 := by norm_num
    omega

lemma eraseSectors_units_shape (cb : chip_blocks_t) :
    ∀ fuel addr len tmo, addr < 4294967296 →
      ∀ x ∈ (eraseSectors cb fuel addr len tmo).1,
        x.1 < 4294967296 ∧
        x.2.1 = x.1 &&& (0xffffffff ^^^ (erase_unit_size cb x.1 - 1)) ∧
        x.2.2 = erase_unit_size cb x.1 := by
  intro fuel
  induction fuel with
  | zero =>
    intro addr len tmo ha x hx
    simp [eraseSectors] at hx
  | succ fuel ih =>
    intro addr len tmo ha x hx
    simp only [eraseSectors] at hx
    split at hx
    · simp at hx
    · split at hx
      · simp only [List.mem_singleton] at hx
        subst hx
        exact ⟨ha, rfl, rfl⟩
      · simp only [List.mem_cons] at hx
        rcases hx with hx | hx
        · subst hx
          exact ⟨ha, rfl, rfl⟩
        · exact ih _ _ _ (Nat.mod_lt _ (by norm_num)) x hx

lemma ee_erase_sector_units (chipid : Nat) (src : Nat → Nat) (mask addr len : Nat)
    (h : addr < EE_DEVICE_SIZE) :
    (ee_erase chipid src mask MX_ERASE_MODE_SECTOR addr len).units =
      (eraseSectors (get_chip_block_info chipid) (if len = 0 then 1 else len) addr
        (if len = 0 then 1 else len) 1000000).1 := by
  unfold ee_erase
  rw [if_neg (by decide), if_neg (Nat.not_le.mpr h), if_neg (by decide)]

lemma ee_erase_sector_units_out (chipid : Nat) (src : Nat → Nat) (mask addr len : Nat)
    (h : EE_DEVICE_SIZE ≤ addr) :
    (ee_erase chipid src mask MX_ERASE_MODE_SECTOR addr len).units = [] := by
  unfold ee_erase
  rw [if_neg (by decide), if_pos h]

/-- Claim C5: every sector-erase command issued by a sector-mode erase is
written at the running address rounded down to the boundary of its enclosing
erase unit: in the designated boot block that boundary is the enclosing
4K-word sub-sector start (where the computed unit begins), elsewhere the
enclosing 32K-word common block start; the issued unit encloses the running
address and its size is the computed erase unit size. -/
theorem c5_erase_alignment (chipid : Nat) (src : Nat → Nat) (mask addr len : Nat)
    (haddr : addr < 4294967296) :
    ∀ x ∈ (ee_erase chipid src mask MX_ERASE_MODE_SECTOR addr len).units,
      x.2.1 = x.1 - x.1 %
          (if x.1 / 32768 = (get_chip_block_info chipid).cb_bbnum then 4096 else 32768) ∧
      x.2.1 ≤ x.1 ∧ x.1 < x.2.1 + x.2.2 ∧
      x.2.2 = erase_unit_size (get_chip_block_info chipid) x.1 := by
  intro x hx
  by_cases hrange : addr < EE_DEVICE_SIZE
  · rw [ee_erase_sector_units chipid src mask addr len hrange] at hx
    obtain ⟨hu32, hca, hsz⟩ :=
      eraseSectors_units_shape (get_chip_block_info chipid) _ addr _ _ haddr x hx
    obtain ⟨hround, hq⟩ :=
      cmd_addr_round (get_chip_block_info chipid) (get_cb_mem chipid) x.1 hu32
    refine ⟨by rw [hca, hround], ?_, ?_, hsz⟩
    · rw [hca, hround]
      split <;> omega
    · rw [hca, hround, hsz]
      by_cases hbb : x.1 / 32768 = (get_chip_block_info chipid).cb_bbnum
      · rw [if_pos hbb]
        rw [if_pos hbb] at hq
        have : x.1 % 4096 < 4096 := Nat.mod_lt _ (by norm_num)
        omega
      · rw [if_neg hbb]
        rw [if_neg hbb] at hq
        have : x.1 % 32768 < 32768 := Nat.mod_lt _ (by norm_num)
        omega
  · rw [ee_erase_sector_units_out chipid src mask addr len (by omega)] at hx
    simp at hx

theorem c5_erase_alignment_witness :
    ((4096 : Nat), (4096 : Nat), (4096 : Nat)).2.1 =
        ((4096 : Nat), (4096 : Nat), (4096 : Nat)).1 -
          ((4096 : Nat), (4096 : Nat), (4096 : Nat)).1 %
            (if ((4096 : Nat), (4096 : Nat), (4096 : Nat)).1 / 32768 =
                (get_chip_block_info 0x00c22258).cb_bbnum then 4096 else 32768) ∧
      ((4096 : Nat), (4096 : Nat), (4096 : Nat)).2.1 ≤
        ((4096 : Nat), (4096 : Nat), (4096 : Nat)).1 ∧
      ((4096 : Nat), (4096 : Nat), (4096 : Nat)).1 <
        ((4096 : Nat), (4096 : Nat), (4096 : Nat)).2.1 +
          ((4096 : Nat), (4096 : Nat), (4096 : Nat)).2.2 ∧
      ((4096 : Nat), (4096 : Nat), (4096 : Nat)).2.2 =
        erase_unit_size (get_chip_block_info 0x00c22258)
          ((4096 : Nat), (4096 : Nat), (4096 : Nat)).1 :=
  c5_erase_alignment 0x00c22258 (fun _ => 0) 0xffff 4096 1 (by decide)
    ((4096 : Nat), (4096 : Nat), (4096 : Nat)) (by decide)

/-- Claim C1 (amended): ee_read and ee_write compare the 32-bit sum of
address and word count against the device bound, so for any non-overflowing
sum they return 1 and transfer nothing exactly when the sum exceeds
DEVICE_WORD_COUNT, and pass the range check otherwise; ee_erase rejects with
a nonzero result, issuing no erase command, exactly when its starting
address is already outside the device, not when the end of the requested
range is. -/
theorem c1_range_check :
    (∀ dev mode addr count, addr + count < 4294967296 → EE_DEVICE_SIZE < addr + count →
      ee_read dev mode addr count = (1, [])) ∧
    (∀ att mask mode addr (data : List Nat), addr + data.length < 4294967296 →
      EE_DEVICE_SIZE < addr + data.length →
      ee_write att mask mode addr data = (1, 0)) ∧
    (∀ dev mode addr count, addr + count ≤ EE_DEVICE_SIZE →
      (ee_read dev mode addr count).1 = 0) ∧
    (∀ att mask mode addr (data : List Nat), addr + data.length ≤ EE_DEVICE_SIZE →
      (ee_write att mask mode addr data).1 ≠ 1) ∧
    (∀ chipid src mask mode addr len, mode ≤ MX_ERASE_MODE_SECTOR →
      EE_DEVICE_SIZE ≤ addr →
      ee_erase chipid src mask mode addr len = ⟨1, [], false⟩) := by
  have hsz : EE_DEVICE_SIZE = 1048576 := by decide
  refine ⟨?_, ?_, ?_, ?_, ?_⟩
  · intro dev mode addr count h1 h2
    unfold ee_read
    rw [Nat.mod_eq_of_lt h1, if_pos h2]
  · intro att mask mode addr data h1 h2
    unfold ee_write
    rw [Nat.mod_eq_of_lt h1, if_pos h2]
  · intro dev mode addr count h
    unfold ee_read
    rw [Nat.mod_eq_of_lt (by omega), if_neg (Nat.not_lt.mpr h)]
  · intro att mask mode addr data h
    unfold ee_write
    rw [Nat.mod_eq_of_lt (by omega), if_neg (Nat.not_lt.mpr h)]
    exact eeWriteGo_rc_ne_one att mask mode data 0
  · intro chipid src mask mode addr len hmode haddr
    unfold ee_erase
    rw [if_neg (Nat.not_lt.mpr hmode), if_pos haddr]

theorem c1_range_check_witness :
    ee_read (fun _ => 0) EE_MODE_16_LOW 1048575 2 = (1, []) ∧
    ee_erase 0 (fun _ => 0) 0xffff MX_ERASE_MODE_SECTOR 1048576 1 = ⟨1, [], false⟩ :=
  ⟨c1_range_check.1 (fun _ => 0) EE_MODE_16_LOW 1048575 2 (by decide) (by decide),
   c1_range_check.2.2.2.2 0 (fun _ => 0) 0xffff MX_ERASE_MODE_SECTOR 1048576 1
     (by decide) (by decide)⟩

/-- Counterexample to claim C1 as stated: the sector-mode erase of the range
of 2 words starting at the last device word has addr + count beyond the
device bound, yet ee_erase does not reject it; with a status source that
settles immediately it erases the final sector and returns 0. -/
theorem c1_range_check_counterexample :
    EE_DEVICE_SIZE < 1048575 + 2 ∧
    (ee_erase 0 (fun _ => 0) 0xffff MX_ERASE_MODE_SECTOR 1048575 2).rc = 0 := by
  constructor
  · decide
  · decide

/-- The driver state touched by ee_enable: the bus width mode global, the
command mask, the enabled flag, and the three timing tick constants. -/
structure EEState where
  mode : Nat
  cmdMask : Nat
  enabled : Bool
  ticks15 : Nat
  ticks20 : Nat
  ticks30 : Nat
deriving DecidableEq

/-- The command mask ee_enable derives from ee_mode: all 32 bits, the low
half, or the high half. -/
def eeCmdMaskOf (mode : Nat) : Nat :=
  if mode = 0 then 0xffffffff else if mode = 1 then 0xffff else 0xffff0000

/-- ee_enable from m29f160xt.c: returns immediately when already enabled,
otherwise recomputes the timing tick constants from the platform tick
conversion, enables the bus drivers, and derives the command mask from the
current mode. -/
def ee_enable (nsecToTick : Nat → Nat) (s : EEState) : EEState :=
  if s.enabled then s
  else
    { mode := s.mode, cmdMask := eeCmdMaskOf s.mode, enabled := true,
      ticks15 := nsecToTick 15, ticks20 := nsecToTick 20, ticks30 := nsecToTick 30 }

/-- Claim C9: ee_enable is idempotent at the public interface: when already
enabled it returns with the state unchanged, so changing the bus width mode
while enabled leaves the applied command mask untouched; the mask and the
timing tick constants are recomputed from the mode only on a
disabled-to-enabled transition. -/
theorem c9_enable_idempotent (t : Nat → Nat) (s : EEState) (m : Nat) :
    (s.enabled = true → ee_enable t s = s ∧
      (ee_enable t { s with mode := m }).cmdMask = s.cmdMask) ∧
    (s.enabled = false → ee_enable t s =
      { mode := s.mode, cmdMask := eeCmdMaskOf s.mode, enabled := true,
        ticks15 := t 15, ticks20 := t 20, ticks30 := t 30 }) := by
  constructor
  · intro h
    constructor
    · simp [ee_enable, h]
    · simp [ee_enable, h]
  · intro h
    simp [ee_enable, h]

theorem c9_enable_idempotent_witness :
    ee_enable (fun _ => 7) ⟨EE_MODE_16_HIGH, 0xffff, true, 1, 2, 3⟩ =
      ⟨EE_MODE_16_HIGH, 0xffff, true, 1, 2, 3⟩ ∧
    (ee_enable (fun _ => 7)
      { (⟨EE_MODE_16_HIGH, 0xffff, true, 1, 2, 3⟩ : EEState) with mode := EE_MODE_32 }).cmdMask =
      0xffff :=
  (c9_enable_idempotent (fun _ => 7) ⟨EE_MODE_16_HIGH, 0xffff, true, 1, 2, 3⟩ EE_MODE_32).1 rfl
